import Mathlib

/-!
Shallow embedding of the appengine-formatter package: a logrus formatter
that renders a log entry as one line of JSON using Stackdriver field names.
The embedding follows `formatter.go` (the variant with `TrimFilenamePrefix`
and the `json.Marshaler` case): `stackdriverLevel`, the document-building
part of `Format`, the field-collision renaming loop, and the JSON encoding
step of `encoding/json` (map keys in sorted order, the value, a newline).

A Go `map[string]interface` is unordered; it is embedded here as a
key-sorted association structure (`JEntries`), the canonical form in which
`encoding/json` also serializes it, with Go map assignment `m[k] = v`
embedded as ordered insert-or-replace (`mapInsert`) and Go map lookup as
`mapGet`. The iteration order of `range entry.Data`, which Go leaves
unspecified, is the list order of `Entry.data`.
-/

namespace Appengine

mutual

/-- JSON-encodable view of a Go value as `encoding/json` would marshal it.
`unsupported` stands for a value `encoding/json` cannot marshal
(channel, function, cyclic value, ...); its tag is the text of the
marshalling error. -/
inductive JValue where
  | null : JValue
  | bool : Bool → JValue
  | int : Int → JValue
  | str : String → JValue
  | obj : JEntries → JValue
  | unsupported : String → JValue

/-- The entries of a JSON object (a Go `map[string]interface` value),
kept in ascending key order. -/
inductive JEntries where
  | nil : JEntries
  | cons : String → JValue → JEntries → JEntries

end

/-- A Go value stored in `entry.Data` (`logrus.Fields`), classified the way
the type switch in `Format` classifies it: an error value that does not
implement `json.Marshaler` (carrying the result of `.Error()`), an error
value that does implement `json.Marshaler` (carrying both `.Error()` and
the JSON its `MarshalJSON` produces), or any other value (carrying the
JSON the generic encoder produces for it). -/
inductive GoValue where
  | plain : JValue → GoValue
  | err : String → GoValue
  | errMarshaler : String → JValue → GoValue

/-- A `runtime.Frame`, as used by `entry.Caller`. -/
structure Frame where
  function : String
  file : String
  line : Int

/-- A `logrus.Entry` restricted to the fields `Format` reads: the field
map (as a list in the map's iteration order, keys distinct), the time
(already split as `Unix()` seconds and `Nanosecond()`), the message, the
level (a `uint32`, embedded as `Nat`), the caller frame (`none` models
`HasCaller() == false`), and the optional reusable output buffer
(bytes embedded as a list of characters). -/
structure Entry where
  data : List (String × GoValue)
  timeUnix : Int
  timeNanos : Int
  message : String
  level : Nat
  caller : Option Frame
  buffer : Option (List Char)

/-- The `Formatter` configuration struct. The Go field `TrimFilenamePrefix`
is named `trimFilenamePfx` here. -/
structure Formatter where
  DisableTimestamp : Bool
  CallerPrettyfier : Option (Frame → String × String)
  trimFilenamePfx : String
  PrettyPrint : Bool

/-- Lexicographic order on character lists by code point: the order in
which `sort.Strings` (hence `encoding/json`) puts map keys. -/
def charsLt : List Char → List Char → Bool
  | [], [] => false
  | [], _ :: _ => true
  | _ :: _, [] => false
  | c :: cs, d :: ds =>
    if c.toNat < d.toNat then true
    else if d.toNat < c.toNat then false
    else charsLt cs ds

/-- String order by code points, as `sort.Strings` orders keys. -/
def strLt (a b : String) : Bool :=
  charsLt a.data b.data

/-- Go map assignment `m[k] = v` on the sorted association structure:
replace the binding if the key is present, otherwise add it at its
ordered position. -/
def mapInsert (k : String) (v : JValue) : JEntries → JEntries
  | .nil => .cons k v .nil
  | .cons k' v' rest =>
    if k' = k then .cons k v rest
    else if strLt k k' then .cons k v (.cons k' v' rest)
    else .cons k' v' (mapInsert k v rest)

/-- Go map lookup `m[k]` together with the `ok` bit: `some v` when present. -/
def mapGet (k : String) : JEntries → Option JValue
  | .nil => none
  | .cons k' v' rest => if k' = k then some v' else mapGet k rest

/-- The keys of an object, in entry order. -/
def JEntries.keys : JEntries → List String
  | .nil => []
  | .cons k _ rest => k :: rest.keys

/-- The values of an object, in entry order. -/
def JEntries.values : JEntries → List JValue
  | .nil => []
  | .cons _ v rest => v :: rest.values

/-- Embeds `stackdriverLevel` from formatter.go. logrus levels are
`PanicLevel = 0`, `FatalLevel = 1`, `ErrorLevel = 2`, `WarnLevel = 3`,
`InfoLevel = 4`, `DebugLevel = 5`, `TraceLevel = 6`. -/
def stackdriverLevel (l : Nat) : String :=
  match l with
  | 0 => "CRITICAL"
  | 1 => "CRITICAL"
  | 2 => "ERROR"
  | 3 => "WARNING"
  | 4 => "INFO"
  | 5 => "DEBUG"
  | 6 => "DEBUG"
  | _ => "DEFAULT"

/-- Embeds logrus `Level.String()`: the lowercase name, `"unknown"` for a
level outside the seven defined ones. -/
def levelString (l : Nat) : String :=
  match l with
  | 0 => "panic"
  | 1 => "fatal"
  | 2 => "error"
  | 3 => "warning"
  | 4 => "info"
  | 5 => "debug"
  | 6 => "trace"
  | _ => "unknown"

/-- Embeds Go `strings.TrimPrefix s pre`: drop `pre` from the front of `s`
when it is a prefix, otherwise return `s` unchanged. -/
def goTrimPfx (s pre : String) : String :=
  if pre.data.isPrefixOf s.data then ⟨s.data.drop pre.data.length⟩ else s

/-- The value the collision loop of `Format` stores for a field value:
the type switch inserts a `json.Marshaler` error as-is (so it marshals to
its custom JSON), any other error as its `.Error()` string, and any other
value unchanged. -/
def fieldValue : GoValue → JValue
  | .plain j => j
  | .err msg => .str msg
  | .errMarshaler _ j => j

/-- The pair `(funcVal, fileVal)` computed by `Format` for a caller frame:
start from `Caller.Function` and `Caller.File` with `trimFilenamePfx`
stripped, then let `CallerPrettyfier` replace both when it is set. -/
def callerValues (f : Formatter) (c : Frame) : String × String :=
  match f.CallerPrettyfier with
  | some p => p c
  | none => (c.function, goTrimPfx c.file f.trimFilenamePfx)

/-- The source-location sub-object `l` built by `Format`: `function` only
when `funcVal` is nonempty; `file` and `line` only when `fileVal` is
nonempty. -/
def callerObj (f : Formatter) (c : Frame) : JEntries :=
  let fv := callerValues f c
  let l0 : JEntries := .nil
  let l1 := if fv.1 = "" then l0 else mapInsert "function" (.str fv.1) l0
  if fv.2 = "" then l1 else mapInsert "line" (.int c.line) (mapInsert "file" (.str fv.2) l1)

/-- The output document of `Format` before the field-map loop runs: the
timestamp object (unless disabled), `message`, `severity`, `level`, and
the source-location object when the entry has a caller. -/
def baseDoc (f : Formatter) (e : Entry) : JEntries :=
  let d0 : JEntries := .nil
  let d1 := if f.DisableTimestamp then d0 else
    mapInsert "timestamp"
      (.obj (mapInsert "seconds" (.int e.timeUnix)
        (mapInsert "nanos" (.int e.timeNanos) .nil))) d0
  let d2 := mapInsert "message" (.str e.message) d1
  let d3 := mapInsert "severity" (.str (stackdriverLevel e.level)) d2
  let d4 := mapInsert "level" (.str (levelString e.level)) d3
  match e.caller with
  | none => d4
  | some c => mapInsert "logging.googleapis.com/sourceLocation" (.obj (callerObj f c)) d4

/-- One iteration of the field-map loop of `Format`: when the key is
already set in the document it is renamed with the `fields.` prefix, then
the (type-switched) value is assigned. -/
def addField (d : JEntries) (kv : String × GoValue) : JEntries :=
  let k := if (mapGet kv.1 d).isSome then "fields." ++ kv.1 else kv.1
  mapInsert k (fieldValue kv.2) d

/-- The complete output document of `Format`: the base document, then the
field map folded in, in iteration order. -/
def formatDoc (f : Formatter) (e : Entry) : JEntries :=
  e.data.foldl addField (baseDoc f e)

/-- The character `U+007B` (opening curly bracket). -/
def lbrace : Char := Char.ofNat 123

/-- The character `U+007D` (closing curly bracket). -/
def rbrace : Char := Char.ofNat 125

/-- Lowercase hexadecimal digit, as `encoding/json` uses in escapes. -/
def hexDigit (n : Nat) : Char :=
  if n < 10 then Char.ofNat (48 + n) else Char.ofNat (87 + n % 16)

/-- A `\uXXXX` escape for one character. -/
def hexEsc (c : Char) : List Char :=
  let n := c.toNat
  ['\\', 'u', hexDigit (n / 4096 % 16), hexDigit (n / 256 % 16),
   hexDigit (n / 16 % 16), hexDigit (n % 16)]

/-- How `encoding/json` (with its default HTML escaping) emits one
character inside a JSON string. -/
def escapeChar (c : Char) : List Char :=
  if c = '"' ∨ c = '\\' then ['\\', c]
  else if c = '\n' then ['\\', 'n']
  else if c = '\r' then ['\\', 'r']
  else if c = '\t' then ['\\', 't']
  else if c = '<' ∨ c = '>' ∨ c = '&' then hexEsc c
  else if c.toNat < 32 ∨ c.toNat = 8232 ∨ c.toNat = 8233 then hexEsc c
  else [c]

/-- A quoted, escaped JSON string literal. -/
def quoteString (s : String) : List Char :=
  '"' :: (s.data.map escapeChar).flatten ++ ['"']

/-- Leading whitespace for one line at the given depth under
`SetIndent("", "  ")`. -/
def indentChars (depth : Nat) : List Char :=
  List.replicate (2 * depth) ' '

/-- Separator between a key and its value: `": "` when indenting, `":"`
when compact. -/
def colonSep (pretty : Bool) : List Char :=
  if pretty then [':', ' '] else [':']

mutual

/-- The bytes `encoding/json` produces for one value (`unsupported`
values, on which marshalling fails instead, render as nothing). -/
def ser (pretty : Bool) (depth : Nat) : JValue → List Char
  | .null => "null".data
  | .bool true => "true".data
  | .bool false => "false".data
  | .int n => (toString n).data
  | .str s => quoteString s
  | .unsupported _ => []
  | .obj .nil => [lbrace, rbrace]
  | .obj (.cons k v rest) =>
    if pretty then
      lbrace :: '\n' :: indentChars (depth + 1) ++
        serEntries pretty (depth + 1) (.cons k v rest) ++
        '\n' :: indentChars depth ++ [rbrace]
    else
      lbrace :: serEntries pretty depth (.cons k v rest) ++ [rbrace]

/-- The comma-separated `"key": value` list of an object body, rendered
at the given depth. -/
def serEntries (pretty : Bool) (depth : Nat) : JEntries → List Char
  | .nil => []
  | .cons k v rest =>
    quoteString k ++ colonSep pretty ++ ser pretty depth v ++
      (match rest with
        | .nil => []
        | .cons _ _ _ =>
          if pretty then ',' :: '\n' :: indentChars depth else [',']) ++
      serEntries pretty depth rest

end

mutual

/-- The first marshalling failure in a value, when any: `encoding/json`
returns an error exactly when the value contains an unsupported part. -/
def marshalErr : JValue → Option String
  | .null => none
  | .bool _ => none
  | .int _ => none
  | .str _ => none
  | .unsupported t => some t
  | .obj m => marshalErrEntries m

/-- First marshalling failure among an object's entries. -/
def marshalErrEntries : JEntries → Option String
  | .nil => none
  | .cons _ v rest =>
    match marshalErr v with
    | some s => some s
    | none => marshalErrEntries rest

end

/-- A value is encodable when marshalling it cannot fail. -/
def encodable (v : JValue) : Bool :=
  (marshalErr v).isNone

/-- The bytes `Format` returns: the destination buffer is the caller's
buffer when one was supplied, otherwise a fresh one; `Encoder.Encode`
either fails (the buffer untouched, `Format` returns the error wrapped
with its static prefix and a nil slice) or appends the JSON document and
one newline, and `Format` returns the buffer's contents. -/
def formatBytes (f : Formatter) (e : Entry) : Except String (List Char) :=
  let data := formatDoc f e
  let buf := match e.buffer with | some b => b | none => []
  match marshalErr (.obj data) with
  | some msg => .error ("failed to marshal fields to JSON, " ++ msg)
  | none => .ok (buf ++ ser f.PrettyPrint 0 (.obj data) ++ ['\n'])

/-- The reserved top-level keys `Format` itself can assign. -/
def reservedKeys : List String :=
  ["timestamp", "message", "severity", "level", "logging.googleapis.com/sourceLocation"]

theorem mapGet_insert (t k : String) (v : JValue) :
    ∀ (m : JEntries), mapGet t (mapInsert k v m) = if k = t then some v else mapGet t m
  | .nil => by simp [mapInsert, mapGet]
  | .cons k' v' rest => by
    have ih := mapGet_insert t k v rest
    simp only [mapInsert]
    by_cases h1 : k' = k
    · rw [if_pos h1]
      subst h1
      by_cases h2 : k' = t <;> simp [mapGet, h2]
    · rw [if_neg h1]
      by_cases h5 : strLt k k' = true
      · rw [if_pos h5]
        simp only [mapGet]
      · rw [if_neg h5]
        by_cases h4 : k' = t
        · have h2 : ¬ k = t := fun he => h1 (h4.trans he.symm)
          simp only [mapGet, if_pos h4, if_neg h2]
        · simp only [mapGet, if_neg h4, ih]

theorem mapGet_insert_isSome (t k : String) (v : JValue) (m : JEntries)
    (h : mapGet t m ≠ none) : mapGet t (mapInsert k v m) ≠ none := by
  rw [mapGet_insert]
  split <;> simp [h]

theorem fields_append_head (k : String) : ("fields." ++ k).data.head? = some 'f' := rfl

theorem fields_append_ne (k r : String) (h : r.data.head? ≠ some 'f') :
    "fields." ++ k ≠ r :=
  fun he => h (he ▸ fields_append_head k)

theorem fields_append_inj {a b : String} (h : "fields." ++ a = "fields." ++ b) : a = b := by
  have hd := congrArg String.data h
  simp only [String.data_append] at hd
  have hab : a.data = b.data := List.append_cancel_left hd
  cases a; cases b
  exact congrArg String.mk hab

theorem fields_append_ne_reserved (k r : String) (hr : r ∈ reservedKeys) :
    "fields." ++ k ≠ r := by
  fin_cases hr <;> exact fields_append_ne k _ (by decide)

/-- Keys the collision loop never writes to keep their bindings: a key that
no field of the map matches directly or renamed is untouched by the loop. -/
theorem fold_frame_ne (t : String) :
    ∀ (l : List (String × GoValue)) (d : JEntries),
      (∀ kv ∈ l, kv.1 ≠ t ∧ "fields." ++ kv.1 ≠ t) →
      mapGet t (l.foldl addField d) = mapGet t d
  | [], _, _ => rfl
  | kv :: rest, d, h => by
    rw [List.foldl_cons,
      fold_frame_ne t rest _ (fun p hp => h p (List.mem_cons_of_mem _ hp))]
    have h1 := h kv (List.mem_cons_self _ _)
    have hk : (if (mapGet kv.1 d).isSome then "fields." ++ kv.1 else kv.1) ≠ t := by
      split
      · exact h1.2
      · exact h1.1
    simp only [addField]
    rw [mapGet_insert, if_neg hk]

/-- A key that is already set keeps its value across the loop provided no
field of the map renames onto it; a direct hit is impossible because a set
key is always renamed before assignment. -/
theorem fold_frame_set (t : String) (x : JValue) :
    ∀ (l : List (String × GoValue)) (d : JEntries),
      mapGet t d = some x →
      (∀ kv ∈ l, "fields." ++ kv.1 ≠ t) →
      mapGet t (l.foldl addField d) = some x
  | [], _, hset, _ => hset
  | kv :: rest, d, hset, h => by
    rw [List.foldl_cons]
    apply fold_frame_set t x rest _ ?_ (fun p hp => h p (List.mem_cons_of_mem _ hp))
    have hk : (if (mapGet kv.1 d).isSome then "fields." ++ kv.1 else kv.1) ≠ t := by
      split
      · exact h kv (List.mem_cons_self _ _)
      · rename_i hs
        intro he
        rw [he, hset] at hs
        exact hs rfl
    simp only [addField]
    rw [mapGet_insert, if_neg hk]
    exact hset

/-- A user field whose key is already set in the document before the loop
ends up, renamed, under the `fields.` prefix with its own value. -/
theorem fold_collision (r : String) (v : GoValue) :
    ∀ (l : List (String × GoValue)) (d : JEntries),
      (l.map Prod.fst).Nodup → (r, v) ∈ l → mapGet r d ≠ none →
      mapGet ("fields." ++ r) (l.foldl addField d) = some (fieldValue v)
  | kv :: rest, d, hnd, hmem, hset => by
    rw [List.map_cons] at hnd
    rcases List.mem_cons.mp hmem with heq | htail
    · subst heq
      rw [List.foldl_cons]
      apply fold_frame_set ("fields." ++ r) (fieldValue v) rest _ ?_ ?_
      · simp only [addField]
        have hs : (mapGet r d).isSome := Option.isSome_iff_ne_none.mpr hset
        rw [if_pos hs, mapGet_insert, if_pos rfl]
      · intro p hp hpe
        have hp1 : p.1 = r := fields_append_inj hpe
        have hpm : p.1 ∈ rest.map Prod.fst := List.mem_map_of_mem Prod.fst hp
        rw [hp1] at hpm
        exact (List.nodup_cons.mp hnd).1 hpm
    · rw [List.foldl_cons]
      apply fold_collision r v rest _ (List.nodup_cons.mp hnd).2 htail
      simp only [addField]
      apply mapGet_insert_isSome _ _ _ _ hset

/-- Under distinct keys none of which starts with the `fields.` prefix,
every field of the map survives the loop: its value sits under its own
key or under the `fields.`-renamed key. -/
theorem fold_lossless (k : String) (v : GoValue) :
    ∀ (l : List (String × GoValue)) (d : JEntries),
      (l.map Prod.fst).Nodup →
      (∀ kv ∈ l, ∀ s : String, kv.1 ≠ "fields." ++ s) →
      (k, v) ∈ l →
      mapGet k (l.foldl addField d) = some (fieldValue v) ∨
        mapGet ("fields." ++ k) (l.foldl addField d) = some (fieldValue v)
  | kv :: rest, d, hnd, hnf, hmem => by
    rw [List.map_cons] at hnd
    rcases List.mem_cons.mp hmem with heq | htail
    · subst heq
      rw [List.foldl_cons]
      have hnr : k ∉ rest.map Prod.fst := (List.nodup_cons.mp hnd).1
      by_cases hs : (mapGet k d).isSome
      · right
        apply fold_frame_set ("fields." ++ k) (fieldValue v) rest _ ?_ ?_
        · simp only [addField]
          rw [if_pos hs, mapGet_insert, if_pos rfl]
        · intro p hp hpe
          exact hnr (fields_append_inj hpe ▸ List.mem_map_of_mem Prod.fst hp)
      · left
        apply fold_frame_set k (fieldValue v) rest _ ?_ ?_
        · simp only [addField]
          rw [if_neg hs, mapGet_insert, if_pos rfl]
        · intro p hp hpe
          exact hnf (k, v) (List.mem_cons_self _ _) p.1 hpe.symm
    · rw [List.foldl_cons]
      exact fold_lossless k v rest _ (List.nodup_cons.mp hnd).2
        (fun p hp => hnf p (List.mem_cons_of_mem _ hp)) htail

theorem baseDoc_message (f : Formatter) (e : Entry) :
    mapGet "message" (baseDoc f e) = some (.str e.message) := by
  cases hc : e.caller <;> cases hdt : f.DisableTimestamp <;>
    simp [baseDoc, hc, hdt, mapGet_insert, mapGet]

theorem baseDoc_severity (f : Formatter) (e : Entry) :
    mapGet "severity" (baseDoc f e) = some (.str (stackdriverLevel e.level)) := by
  cases hc : e.caller <;> cases hdt : f.DisableTimestamp <;>
    simp [baseDoc, hc, hdt, mapGet_insert, mapGet]

theorem baseDoc_level (f : Formatter) (e : Entry) :
    mapGet "level" (baseDoc f e) = some (.str (levelString e.level)) := by
  cases hc : e.caller <;> cases hdt : f.DisableTimestamp <;>
    simp [baseDoc, hc, hdt, mapGet_insert, mapGet]

theorem baseDoc_timestamp (f : Formatter) (e : Entry) (h : f.DisableTimestamp = false) :
    mapGet "timestamp" (baseDoc f e) =
      some (.obj (mapInsert "seconds" (.int e.timeUnix)
        (mapInsert "nanos" (.int e.timeNanos) .nil))) := by
  cases hc : e.caller <;>
    simp [baseDoc, hc, h, mapGet_insert, mapGet]

theorem baseDoc_timestamp_disabled (f : Formatter) (e : Entry)
    (h : f.DisableTimestamp = true) :
    mapGet "timestamp" (baseDoc f e) = none := by
  cases hc : e.caller <;>
    simp [baseDoc, hc, h, mapGet_insert, mapGet]

theorem baseDoc_sourceLocation (f : Formatter) (e : Entry) (c : Frame)
    (hc : e.caller = some c) :
    mapGet "logging.googleapis.com/sourceLocation" (baseDoc f e) =
      some (.obj (callerObj f c)) := by
  cases hdt : f.DisableTimestamp <;>
    simp [baseDoc, hc, hdt, mapGet_insert, mapGet]

/-- A key `Format` set before the field loop keeps its value in the final
document: no loop iteration can write to it, because a renamed key starts
with `fields.` and no reserved key does, and a direct write only happens
to unset keys. -/
theorem formatDoc_reserved_set (f : Formatter) (e : Entry) (r : String) (x : JValue)
    (hr : r ∈ reservedKeys) (hx : mapGet r (baseDoc f e) = some x) :
    mapGet r (formatDoc f e) = some x :=
  fold_frame_set r x e.data _ hx (fun kv _ => fields_append_ne_reserved kv.1 r hr)

theorem formatDoc_message (f : Formatter) (e : Entry) :
    mapGet "message" (formatDoc f e) = some (.str e.message) :=
  formatDoc_reserved_set f e _ _ (by decide) (baseDoc_message f e)

theorem formatDoc_severity (f : Formatter) (e : Entry) :
    mapGet "severity" (formatDoc f e) = some (.str (stackdriverLevel e.level)) :=
  formatDoc_reserved_set f e _ _ (by decide) (baseDoc_severity f e)

theorem formatDoc_level (f : Formatter) (e : Entry) :
    mapGet "level" (formatDoc f e) = some (.str (levelString e.level)) :=
  formatDoc_reserved_set f e _ _ (by decide) (baseDoc_level f e)

theorem formatDoc_sourceLocation (f : Formatter) (e : Entry) (c : Frame)
    (hc : e.caller = some c) :
    mapGet "logging.googleapis.com/sourceLocation" (formatDoc f e) =
      some (.obj (callerObj f c)) :=
  formatDoc_reserved_set f e _ _ (by decide) (baseDoc_sourceLocation f e c hc)

theorem marshalErrEntries_insert (k : String) (v : JValue) :
    ∀ (m : JEntries), marshalErrEntries m = none → marshalErr v = none →
      marshalErrEntries (mapInsert k v m) = none
  | .nil, _, hv => by simp [mapInsert, marshalErrEntries, hv]
  | .cons k' v' rest, hm, hv => by
    have hs : marshalErr v' = none := by
      cases hmv : marshalErr v' with
      | none => rfl
      | some s => simp [marshalErrEntries, hmv] at hm
    have hr : marshalErrEntries rest = none := by
      simpa [marshalErrEntries, hs] using hm
    simp only [mapInsert]
    split_ifs with h1 h5
    · simp [marshalErrEntries, hv, hs, hr]
    · simp [marshalErrEntries, hv, hs, hr]
    · simp [marshalErrEntries, hs, marshalErrEntries_insert k v rest hr hv]

theorem callerObj_ok (f : Formatter) (c : Frame) :
    marshalErrEntries (callerObj f c) = none := by
  simp only [callerObj]
  split_ifs <;>
    repeat (first
      | rfl
      | apply marshalErrEntries_insert _ _ _ ?_ rfl)

theorem baseDoc_ok (f : Formatter) (e : Entry) :
    marshalErrEntries (baseDoc f e) = none := by
  cases hc : e.caller with
  | none =>
    cases hdt : f.DisableTimestamp <;> simp only [baseDoc, hc, hdt] <;>
      simp only [Bool.false_eq_true, if_false, if_true] <;>
      repeat (first
        | rfl
        | apply marshalErrEntries_insert _ _ _ ?_ rfl)
  | some c =>
    cases hdt : f.DisableTimestamp <;> simp only [baseDoc, hc, hdt] <;>
      simp only [Bool.false_eq_true, if_false, if_true] <;>
      apply marshalErrEntries_insert _ (.obj (callerObj f c)) _ ?_
        (show marshalErr (.obj (callerObj f c)) = none from callerObj_ok f c) <;>
      repeat (first
        | rfl
        | apply marshalErrEntries_insert _ _ _ ?_ rfl)

theorem fold_ok :
    ∀ (l : List (String × GoValue)) (d : JEntries),
      marshalErrEntries d = none →
      (∀ kv ∈ l, marshalErr (fieldValue kv.2) = none) →
      marshalErrEntries (l.foldl addField d) = none
  | [], _, hd, _ => hd
  | kv :: rest, d, hd, hl => by
    rw [List.foldl_cons]
    apply fold_ok rest _ ?_ (fun p hp => hl p (List.mem_cons_of_mem _ hp))
    simp only [addField]
    exact marshalErrEntries_insert _ _ d hd (hl kv (List.mem_cons_self _ _))

theorem ser_obj_last (pretty : Bool) (depth : Nat) (m : JEntries) :
    (ser pretty depth (.obj m)).getLast? = some rbrace := by
  cases m with
  | nil => rfl
  | cons k v rest =>
    cases pretty <;> simp only [ser, if_true, if_false, Bool.false_eq_true] <;>
      rw [List.getLast?_concat]

/-- C1: the `severity` value emitted by `Format` is the fixed mapping of
the entry's level: Panic and Fatal give CRITICAL, Error gives ERROR,
Warning gives WARNING, Info gives INFO, Debug and Trace give DEBUG, and
every other level value gives DEFAULT. -/
theorem severity_is_stackdriver_mapping (f : Formatter) (e : Entry) :
    mapGet "severity" (formatDoc f e) = some (.str (stackdriverLevel e.level)) ∧
    stackdriverLevel 0 = "CRITICAL" ∧ stackdriverLevel 1 = "CRITICAL" ∧
    stackdriverLevel 2 = "ERROR" ∧ stackdriverLevel 3 = "WARNING" ∧
    stackdriverLevel 4 = "INFO" ∧ stackdriverLevel 5 = "DEBUG" ∧
    stackdriverLevel 6 = "DEBUG" ∧
    ∀ n : Nat, 6 < n → stackdriverLevel n = "DEFAULT" := by
  refine ⟨formatDoc_severity f e, rfl, rfl, rfl, rfl, rfl, rfl, rfl, ?_⟩
  intro n hn
  match n, hn with
  | (m + 7), _ => rfl

theorem severity_is_stackdriver_mapping_witness :
    stackdriverLevel 99 = "DEFAULT" ∧
    mapGet "severity"
      (formatDoc ⟨false, none, "", false⟩ ⟨[], 0, 0, "m", 5, none, none⟩) =
      some (.str (stackdriverLevel 5)) :=
  ⟨(severity_is_stackdriver_mapping ⟨false, none, "", false⟩
      ⟨[], 0, 0, "m", 5, none, none⟩).2.2.2.2.2.2.2.2 99 (by decide),
   (severity_is_stackdriver_mapping ⟨false, none, "", false⟩
      ⟨[], 0, 0, "m", 5, none, none⟩).1⟩

/-- C2: a user field whose key equals a reserved output key that `Format`
has assigned (timestamp when enabled, message, severity, level, the
source-location key when a caller is present) is re-emitted under the
`fields.` prefix with the user's value, while the reserved key keeps the
system-assigned value it had before the field loop. -/
theorem reserved_collision_renames (f : Formatter) (e : Entry) (r : String) (v : GoValue)
    (hnd : (e.data.map Prod.fst).Nodup) (hr : r ∈ reservedKeys)
    (hmem : (r, v) ∈ e.data) (hset : mapGet r (baseDoc f e) ≠ none) :
    mapGet ("fields." ++ r) (formatDoc f e) = some (fieldValue v) ∧
    mapGet r (formatDoc f e) = mapGet r (baseDoc f e) := by
  constructor
  · exact fold_collision r v e.data _ hnd hmem hset
  · obtain ⟨x, hx⟩ := Option.ne_none_iff_exists'.mp hset
    rw [formatDoc,
      fold_frame_set r x e.data _ hx (fun kv _ => fields_append_ne_reserved kv.1 r hr), hx]

theorem reserved_collision_renames_witness :
    mapGet ("fields." ++ "message")
      (formatDoc ⟨false, none, "", false⟩
        ⟨[("message", GoValue.plain (JValue.str "something"))], 0, 0, "m", 4, none, none⟩) =
      some (fieldValue (GoValue.plain (JValue.str "something"))) ∧
    mapGet "message"
      (formatDoc ⟨false, none, "", false⟩
        ⟨[("message", GoValue.plain (JValue.str "something"))], 0, 0, "m", 4, none, none⟩) =
      mapGet "message"
        (baseDoc ⟨false, none, "", false⟩
          ⟨[("message", GoValue.plain (JValue.str "something"))], 0, 0, "m", 4, none, none⟩) :=
  reserved_collision_renames ⟨false, none, "", false⟩
    ⟨[("message", GoValue.plain (JValue.str "something"))], 0, 0, "m", 4, none, none⟩
    "message" (GoValue.plain (JValue.str "something"))
    (by simp) (by decide) (List.mem_cons_self _ _) (fun h => Option.noConfusion h)

/-- C3 fails as stated: with the field map holding both `fields.message`
and `message`, the iteration order that visits `fields.message` first
loses its value (`message` is renamed onto the same key and overwrites
it), and the opposite order keeps both, so the result depends on the
unspecified map iteration order. -/
theorem collision_renaming_lossy_cex :
    JValue.str "b" ∉
      (formatDoc ⟨true, none, "", false⟩
        ⟨[("fields.message", GoValue.plain (JValue.str "b")),
          ("message", GoValue.plain (JValue.str "a"))], 0, 0, "m", 2, none, none⟩).values ∧
    mapGet "fields.fields.message"
      (formatDoc ⟨true, none, "", false⟩
        ⟨[("fields.message", GoValue.plain (JValue.str "b")),
          ("message", GoValue.plain (JValue.str "a"))], 0, 0, "m", 2, none, none⟩) = none ∧
    mapGet "fields.fields.message"
      (formatDoc ⟨true, none, "", false⟩
        ⟨[("message", GoValue.plain (JValue.str "a")),
          ("fields.message", GoValue.plain (JValue.str "b"))], 0, 0, "m", 2, none, none⟩) =
      some (JValue.str "b") := by
  refine ⟨?_, rfl, rfl⟩
  have h : (formatDoc ⟨true, none, "", false⟩
      ⟨[("fields.message", GoValue.plain (JValue.str "b")),
        ("message", GoValue.plain (JValue.str "a"))], 0, 0, "m", 2, none, none⟩).values =
      [JValue.str "a", JValue.str "error", JValue.str "m", JValue.str "ERROR"] := rfl
  rw [h]
  simp

/-- C3, amended: provided the user keys are distinct and none of them
starts with the `fields.` prefix, the renaming is lossless and
independent of iteration order in effect: every user value appears in the
output under its own key or under its `fields.`-prefixed key. When the
field map contains a key of the form `fields.<reserved-key>` alongside
the reserved key itself, a user value can be overwritten and the outcome
depends on the map's iteration order. -/
theorem collision_renaming_lossless (f : Formatter) (e : Entry)
    (hnd : (e.data.map Prod.fst).Nodup)
    (hnf : ∀ kv ∈ e.data, ∀ s : String, kv.1 ≠ "fields." ++ s) :
    ∀ k v, (k, v) ∈ e.data →
      mapGet k (formatDoc f e) = some (fieldValue v) ∨
        mapGet ("fields." ++ k) (formatDoc f e) = some (fieldValue v) :=
  fun k v hm => fold_lossless k v e.data _ hnd hnf hm

theorem collision_renaming_lossless_witness :
    mapGet "zoo"
      (formatDoc ⟨false, none, "", false⟩
        ⟨[("zoo", GoValue.plain JValue.null)], 0, 0, "m", 4, none, none⟩) =
      some (fieldValue (GoValue.plain JValue.null)) ∨
    mapGet ("fields." ++ "zoo")
      (formatDoc ⟨false, none, "", false⟩
        ⟨[("zoo", GoValue.plain JValue.null)], 0, 0, "m", 4, none, none⟩) =
      some (fieldValue (GoValue.plain JValue.null)) :=
  collision_renaming_lossless ⟨false, none, "", false⟩
    ⟨[("zoo", GoValue.plain JValue.null)], 0, 0, "m", 4, none, none⟩
    (by simp)
    (by
      intro kv hkv s he
      rw [List.mem_singleton] at hkv
      subst hkv
      exact fields_append_ne s "zoo" (by decide) he.symm)
    "zoo" (GoValue.plain JValue.null) (List.mem_cons_self _ _)

/-- C4: an error-like field value that implements `json.Marshaler` is
inserted as-is (its custom JSON survives in the document), and an
error-like value without it is inserted as its `.Error()` message string,
never as the raw object. -/
theorem error_fields_not_lost (f : Formatter) (e : Entry)
    (hnd : (e.data.map Prod.fst).Nodup)
    (hnf : ∀ kv ∈ e.data, ∀ s : String, kv.1 ≠ "fields." ++ s) :
    (∀ k msg, (k, GoValue.err msg) ∈ e.data →
      mapGet k (formatDoc f e) = some (.str msg) ∨
        mapGet ("fields." ++ k) (formatDoc f e) = some (.str msg)) ∧
    (∀ k msg j, (k, GoValue.errMarshaler msg j) ∈ e.data →
      mapGet k (formatDoc f e) = some j ∨
        mapGet ("fields." ++ k) (formatDoc f e) = some j) :=
  ⟨fun k msg hm => fold_lossless k (GoValue.err msg) e.data _ hnd hnf hm,
   fun k msg j hm => fold_lossless k (GoValue.errMarshaler msg j) e.data _ hnd hnf hm⟩

theorem error_fields_not_lost_witness :
    mapGet "error"
      (formatDoc ⟨false, none, "", false⟩
        ⟨[("error", GoValue.err "wild walrus")], 0, 0, "m", 4, none, none⟩) =
      some (.str "wild walrus") ∨
    mapGet ("fields." ++ "error")
      (formatDoc ⟨false, none, "", false⟩
        ⟨[("error", GoValue.err "wild walrus")], 0, 0, "m", 4, none, none⟩) =
      some (.str "wild walrus") :=
  (error_fields_not_lost ⟨false, none, "", false⟩
    ⟨[("error", GoValue.err "wild walrus")], 0, 0, "m", 4, none, none⟩
    (by simp)
    (by
      intro kv hkv s he
      rw [List.mem_singleton] at hkv
      subst hkv
      exact fields_append_ne s "error" (by decide) he.symm)).1
    "error" "wild walrus" (List.mem_cons_self _ _)

/-- C5: for an entry with caller information the source-location
sub-object follows the suppression rule on the (possibly
prettyfier-replaced) function and file strings: `function` is present iff
the function string is nonempty, and `file` and `line` are present iff
the file string is nonempty, so `line` is never present without `file`. -/
theorem source_location_suppression (f : Formatter) (e : Entry) (c : Frame)
    (hc : e.caller = some c) :
    mapGet "logging.googleapis.com/sourceLocation" (formatDoc f e) =
      some (.obj (callerObj f c)) ∧
    mapGet "function" (callerObj f c) =
      (if (callerValues f c).1 = "" then none else some (.str (callerValues f c).1)) ∧
    mapGet "file" (callerObj f c) =
      (if (callerValues f c).2 = "" then none else some (.str (callerValues f c).2)) ∧
    mapGet "line" (callerObj f c) =
      (if (callerValues f c).2 = "" then none else some (.int c.line)) := by
  refine ⟨formatDoc_sourceLocation f e c hc, ?_, ?_, ?_⟩ <;>
    · simp only [callerObj]
      split_ifs <;> simp_all [mapGet_insert, mapGet]

theorem source_location_suppression_witness :
    mapGet "logging.googleapis.com/sourceLocation"
      (formatDoc ⟨false, none, "", false⟩
        ⟨[], 0, 0, "m", 4, some ⟨"fn", "file.go", 42⟩, none⟩) =
      some (.obj (callerObj ⟨false, none, "", false⟩ ⟨"fn", "file.go", 42⟩)) ∧
    mapGet "function" (callerObj ⟨false, none, "", false⟩ ⟨"fn", "file.go", 42⟩) =
      (if (callerValues ⟨false, none, "", false⟩ ⟨"fn", "file.go", 42⟩).1 = "" then none
       else some (.str (callerValues ⟨false, none, "", false⟩ ⟨"fn", "file.go", 42⟩).1)) ∧
    mapGet "file" (callerObj ⟨false, none, "", false⟩ ⟨"fn", "file.go", 42⟩) =
      (if (callerValues ⟨false, none, "", false⟩ ⟨"fn", "file.go", 42⟩).2 = "" then none
       else some (.str (callerValues ⟨false, none, "", false⟩ ⟨"fn", "file.go", 42⟩).2)) ∧
    mapGet "line" (callerObj ⟨false, none, "", false⟩ ⟨"fn", "file.go", 42⟩) =
      (if (callerValues ⟨false, none, "", false⟩ ⟨"fn", "file.go", 42⟩).2 = "" then none
       else some (.int 42)) :=
  source_location_suppression ⟨false, none, "", false⟩
    ⟨[], 0, 0, "m", 4, some ⟨"fn", "file.go", 42⟩, none⟩ ⟨"fn", "file.go", 42⟩ rfl

/-- C6: whenever `Format` succeeds, the returned bytes end with exactly
one newline: the bytes are some prefix followed by a newline, and that
prefix does not itself end with a newline (it ends with the closing
bracket of the JSON object). -/
theorem output_ends_with_newline (f : Formatter) (e : Entry) (bs : List Char)
    (h : formatBytes f e = .ok bs) :
    ∃ cs, bs = cs ++ ['\n'] ∧ cs.getLast? ≠ some '\n' := by
  cases hm : marshalErr (.obj (formatDoc f e)) with
  | some s =>
    simp only [formatBytes, hm] at h
    exact Except.noConfusion h
  | none =>
    simp only [formatBytes, hm] at h
    injection h with h
    refine ⟨(match e.buffer with | some b => b | none => []) ++
      ser f.PrettyPrint 0 (.obj (formatDoc f e)), h.symm, ?_⟩
    rw [List.getLast?_append, ser_obj_last]
    simp [rbrace]

theorem output_ends_with_newline_witness :
    ∃ bs, formatBytes ⟨true, none, "", false⟩ ⟨[], 0, 0, "", 0, none, none⟩ = .ok bs ∧
      ∃ cs, bs = cs ++ ['\n'] ∧ cs.getLast? ≠ some '\n' :=
  ⟨_, rfl, output_ends_with_newline ⟨true, none, "", false⟩
    ⟨[], 0, 0, "", 0, none, none⟩ _ rfl⟩

/-- C7 fails as stated: with timestamps disabled, a user field named
`timestamp` passes through the collision loop unrenamed (the key is not
set), so the output does contain a `timestamp` key, and with it the
literal text `timestamp`. -/
theorem timestamp_disabled_cex :
    mapGet "timestamp"
      (formatDoc ⟨true, none, "", false⟩
        ⟨[("timestamp", GoValue.plain (JValue.str "x"))], 0, 0, "m", 2, none, none⟩) =
      some (JValue.str "x") := rfl

/-- C7, amended: when `DisableTimestamp` is true, `Format` itself assigns
no `timestamp` key, so if the field map has no key `timestamp` the output
has none (a user-supplied `timestamp` field, however, passes through);
when `DisableTimestamp` is false the output always carries `timestamp`
with the object holding `seconds` = unix seconds and `nanos` = the
nanosecond fraction of the record's time. -/
theorem timestamp_presence (f : Formatter) (e : Entry) :
    (f.DisableTimestamp = true → "timestamp" ∉ e.data.map Prod.fst →
      mapGet "timestamp" (formatDoc f e) = none) ∧
    (f.DisableTimestamp = false →
      mapGet "timestamp" (formatDoc f e) =
        some (.obj (mapInsert "seconds" (.int e.timeUnix)
          (mapInsert "nanos" (.int e.timeNanos) .nil))) ∧
      mapGet "seconds" (mapInsert "seconds" (.int e.timeUnix)
        (mapInsert "nanos" (.int e.timeNanos) .nil)) = some (.int e.timeUnix) ∧
      mapGet "nanos" (mapInsert "seconds" (.int e.timeUnix)
        (mapInsert "nanos" (.int e.timeNanos) .nil)) = some (.int e.timeNanos)) := by
  constructor
  · intro hdt hnk
    have hfr : ∀ kv ∈ e.data, kv.1 ≠ "timestamp" ∧ "fields." ++ kv.1 ≠ "timestamp" := by
      intro kv hkv
      exact ⟨fun he => hnk (he ▸ List.mem_map_of_mem Prod.fst hkv),
        fields_append_ne_reserved kv.1 _ (by decide)⟩
    rw [formatDoc, fold_frame_ne _ e.data _ hfr, baseDoc_timestamp_disabled f e hdt]
  · intro hdt
    exact ⟨formatDoc_reserved_set f e _ _ (by decide) (baseDoc_timestamp f e hdt), rfl, rfl⟩

theorem timestamp_presence_witness :
    mapGet "timestamp"
      (formatDoc ⟨true, none, "", false⟩
        ⟨[("k", GoValue.plain JValue.null)], 0, 0, "m", 2, none, none⟩) = none ∧
    mapGet "timestamp"
      (formatDoc ⟨false, none, "", false⟩ ⟨[], 7, 9, "m", 2, none, none⟩) =
      some (.obj (mapInsert "seconds" (.int 7) (mapInsert "nanos" (.int 9) .nil))) :=
  ⟨(timestamp_presence ⟨true, none, "", false⟩
      ⟨[("k", GoValue.plain JValue.null)], 0, 0, "m", 2, none, none⟩).1 rfl (by decide),
   ((timestamp_presence ⟨false, none, "", false⟩ ⟨[], 7, 9, "m", 2, none, none⟩).2 rfl).1⟩

/-- C8: `Format` fails exactly when JSON encoding of the output document
fails; a failure carries the static descriptive prefix and no bytes, and
a field map whose values are all encodable never makes `Format` fail
(missing optional parts never do: the system-assigned values are always
encodable). -/
theorem format_error_iff_encoding (f : Formatter) (e : Entry) :
    ((∃ bs, formatBytes f e = .ok bs) ↔ marshalErrEntries (formatDoc f e) = none) ∧
    (∀ s, formatBytes f e = .error s →
      ∃ msg, s = "failed to marshal fields to JSON, " ++ msg) ∧
    ((∀ kv ∈ e.data, marshalErr (fieldValue kv.2) = none) →
      ∃ bs, formatBytes f e = .ok bs) := by
  have hmm : marshalErr (.obj (formatDoc f e)) = marshalErrEntries (formatDoc f e) := rfl
  refine ⟨⟨?_, ?_⟩, ?_, ?_⟩
  · rintro ⟨bs, hbs⟩
    cases hm : marshalErrEntries (formatDoc f e) with
    | none => rfl
    | some s =>
      rw [← hmm] at hm
      simp only [formatBytes, hm] at hbs
      exact Except.noConfusion hbs
  · intro hm
    rw [← hmm] at hm
    simp only [formatBytes, hm]
    exact ⟨_, rfl⟩
  · intro s hs
    cases hm : marshalErrEntries (formatDoc f e) with
    | none =>
      rw [← hmm] at hm
      simp only [formatBytes, hm] at hs
      exact Except.noConfusion hs
    | some msg =>
      rw [← hmm] at hm
      simp only [formatBytes, hm, Except.error.injEq] at hs
      exact ⟨msg, hs.symm⟩
  · intro hall
    have hok : marshalErrEntries (formatDoc f e) = none :=
      fold_ok e.data _ (baseDoc_ok f e) hall
    rw [← hmm] at hok
    simp only [formatBytes, hok]
    exact ⟨_, rfl⟩

theorem format_error_iff_encoding_witness :
    (∃ bs, formatBytes ⟨false, none, "", false⟩
      ⟨[("error", GoValue.err "x")], 0, 0, "m", 4, none, none⟩ = .ok bs) ∧
    (∃ msg, "failed to marshal fields to JSON, boom" =
      "failed to marshal fields to JSON, " ++ msg) :=
  ⟨(format_error_iff_encoding ⟨false, none, "", false⟩
      ⟨[("error", GoValue.err "x")], 0, 0, "m", 4, none, none⟩).2.2
      (by
        intro kv hkv
        rw [List.mem_singleton] at hkv
        subst hkv
        rfl),
   (format_error_iff_encoding ⟨false, none, "", false⟩
      ⟨[("bad", GoValue.plain (JValue.unsupported "boom"))], 0, 0, "m", 4, none, none⟩).2.1
      _ rfl⟩

/-- C9: `Format` only appends to a caller-supplied buffer: with a buffer
the result is exactly the buffer's prior bytes followed by what a call
without a buffer (a fresh one) would produce, and errors are unaffected
by the buffer. -/
theorem buffer_append_only (f : Formatter) (e : Entry) (buf : List Char) :
    formatBytes f { e with buffer := some buf } =
      (formatBytes f { e with buffer := none }).map (fun bs => buf ++ bs) := by
  have hdoc : formatDoc f { e with buffer := some buf } =
      formatDoc f { e with buffer := none } := rfl
  cases hm : marshalErr (.obj (formatDoc f { e with buffer := none })) with
  | some s =>
    simp [formatBytes, hdoc, hm, Except.map]
  | none =>
    simp [formatBytes, hdoc, hm, Except.map]

/-- C10: with caller information present and a prettyfier returning empty
strings for both function and file, the source-location key is still
emitted and its value is the empty JSON object. -/
theorem source_location_empty_object (f : Formatter) (e : Entry) (c : Frame)
    (p : Frame → String × String)
    (hc : e.caller = some c) (hp : f.CallerPrettyfier = some p) (hpe : p c = ("", "")) :
    mapGet "logging.googleapis.com/sourceLocation" (formatDoc f e) =
      some (.obj .nil) := by
  have hobj : callerObj f c = .nil := by
    simp [callerObj, callerValues, hp, hpe]
  rw [formatDoc_sourceLocation f e c hc, hobj]

theorem source_location_empty_object_witness :
    mapGet "logging.googleapis.com/sourceLocation"
      (formatDoc ⟨false, some (fun _ => ("", "")), "", false⟩
        ⟨[], 0, 0, "m", 4, some ⟨"fn", "file.go", 42⟩, none⟩) = some (.obj .nil) :=
  source_location_empty_object ⟨false, some (fun _ => ("", "")), "", false⟩
    ⟨[], 0, 0, "m", 4, some ⟨"fn", "file.go", 42⟩, none⟩
    ⟨"fn", "file.go", 42⟩ (fun _ => ("", "")) rfl rfl rfl

end Appengine
